import Mathlib

/-!
Shallow embedding of the ETF allocation pipeline of etf_base.py and proofs
of the specified properties: temporal indicator selection, currency
resolution and FX join, macro-health filtering, composite scoring with
weight normalization, and USD valuation.

All numeric values are modelled as rationals. The square root used by the
standard scaler is supplied as a parameter of the scoring functions, since
none of the verified properties depends on its values; for a zero-variance
column the scaler uses scale 1, mirroring sklearn. Missing cells are
Option.none, and comparisons against missing cells are false, mirroring
pandas. Network effects are modelled by returning the list of request URLs
issued alongside the result, with external services given as oracles.
-/

/-- Errors of the pipeline: a missing API credential (RuntimeError in
fetch_fx_rates), a failed HTTP request, and the scaler rejecting empty or
still-missing input. -/
inductive PipeErr where
  | configError
  | httpError
  | valueError
deriving DecidableEq

/-- One record of the IMF panel after loading: a country, an indicator
name, and the year columns as (year, optional value) pairs. -/
structure PanelRow where
  country : String
  indicator : String
  values : List (Int × Option ℚ)
deriving DecidableEq

/-- One row of the wide table after pivoting, progressively enriched with
the currency code and the FX columns. -/
structure CountryRecord where
  country : String
  cols : List (String × Option ℚ)
  currency : Option String := none
  fxRate : Option ℚ := none
  fxRate1Y : Option ℚ := none
  fxChange : Option ℚ := none
deriving DecidableEq

/-- Column access on a wide row; the two FX-derived columns live in their
own fields. -/
def CountryRecord.getCol (r : CountryRecord) (c : String) : Option ℚ :=
  if c = "FX Rate" then r.fxRate
  else if c = "FX Change" then r.fxChange
  else (List.lookup c r.cols).join

/-- Available (year, value) pairs of one panel row: non-missing and not
dated after the current year (the avail dict of latest). -/
def availOf (cy : Int) (row : List (Int × Option ℚ)) : List (Int × ℚ) :=
  row.filterMap (fun p =>
    match p.2 with
    | some v => if p.1 ≤ cy then some (p.1, v) else none
    | none => none)

/-- Maximum key of an association list (python max over the dict keys). -/
def maxKey : List (Int × ℚ) → Int
  | [] => 0
  | [p] => p.1
  | p :: q :: ps => max p.1 (maxKey (q :: ps))

/-- Temporal selection for one (country, indicator) row (latest inside
extract_latest_values): the current-year value when present, otherwise the
value at the maximum available year; missing when nothing is available. -/
def latest (cy : Int) (row : List (Int × Option ℚ)) : Option ℚ :=
  if (availOf cy row).isEmpty then none
  else
    match List.lookup cy (availOf cy row) with
    | some v => some v
    | none => List.lookup (maxKey (availOf cy row)) (availOf cy row)

/-- Comparison point for the refinement claim, following the words of the
spec only: always take the value at the maximum available year. -/
def latestMaxOnly (cy : Int) (row : List (Int × Option ℚ)) : Option ℚ :=
  if (availOf cy row).isEmpty then none
  else List.lookup (maxKey (availOf cy row)) (availOf cy row)

/-- First-occurrence deduplication of the pivot index. -/
def dedupFirst (seen : List String) : List String → List String
  | [] => []
  | x :: xs => if seen.contains x then dedupFirst seen xs else x :: dedupFirst (x :: seen) xs

/-- Pivot of the indicator-filtered panel into one wide row per country
(extract_latest_values). -/
def extract_latest_values (cy : Int) (inds : List String) (df : List PanelRow) :
    List CountryRecord :=
  (dedupFirst [] ((df.filter (fun r => inds.contains r.indicator)).map (fun r => r.country))).map
    (fun c =>
      { country := c
        cols := ((df.filter (fun r => inds.contains r.indicator)).filter
            (fun r => r.country == c)).map
          (fun r => (r.indicator, latest cy r.values)) })

/-- Strip leading and trailing whitespace from a character list (python
strip). -/
def stripChars (l : List Char) : List Char :=
  ((l.dropWhile (fun c => c.isWhitespace)).reverse.dropWhile (fun c => c.isWhitespace)).reverse

/-- Prefix of a name before the first opening parenthesis, stripped
(python split on the parenthesis, first piece, stripped). -/
def beforeParen (s : String) : String :=
  String.mk (stripChars (s.toList.takeWhile (fun c => c != '(')))

/-- Prefix of a name before the first comma, stripped. -/
def beforeComma (s : String) : String :=
  String.mk (stripChars (s.toList.takeWhile (fun c => c != ',')))

/-- The loop body of get_code: try each name variant in order, accept the
first one whose lookup succeeds with a nonempty currency list. -/
def tryVariants (lookup : String → Option (List String)) : List String → Option String
  | [] => none
  | v :: vs =>
    match lookup v with
    | some (c :: _) => some c
    | _ => tryVariants lookup vs

/-- Currency resolution for one country name (get_code in map_currencies);
the external CountryInfo lookup is an oracle returning none on failure. -/
def get_code (lookup : String → Option (List String)) (name : String) : Option String :=
  tryVariants lookup [name, beforeParen name, beforeComma name]

def latestUrl (k : String) : String :=
  "https://api.freecurrencyapi.com/v1/latest?apikey=" ++ k

def histUrl (k : String) (d : String) : String :=
  "https://api.freecurrencyapi.com/v1/historical?apikey=" ++ k ++ "&date=" ++ d

/-- fetch_fx_rates: raises the configuration error when the credential is
absent, before issuing its network request; the first component lists the
network calls made. -/
def fetch_fx_rates (key? : Option String) (net : String → Option (List (String × ℚ))) :
    List String × Except PipeErr (List (String × ℚ)) :=
  match key? with
  | none => ([], Except.error PipeErr.configError)
  | some k =>
    ([latestUrl k],
      match net (latestUrl k) with
      | some data => Except.ok data
      | none => Except.error PipeErr.httpError)

/-- map_currencies: resolve currencies, drop unresolved countries, fetch
the FX rates once, keep only currencies present in the FX mapping and
record their rate. -/
def map_currencies (lookup : String → Option (List String)) (key? : Option String)
    (net : String → Option (List (String × ℚ))) (df : List CountryRecord) :
    List String × Except PipeErr (List CountryRecord) :=
  let wd := (df.map (fun r => { r with currency := get_code lookup r.country })).filter
    (fun r => r.currency.isSome)
  ((fetch_fx_rates key? net).1,
    match (fetch_fx_rates key? net).2 with
    | Except.error e => Except.error e
    | Except.ok fx =>
      Except.ok ((wd.filter
          (fun r => (r.currency.bind (fun c => List.lookup c fx)).isSome)).map
        (fun r => { r with fxRate := r.currency.bind (fun c => List.lookup c fx) })))

/-- The historical-rates request of build_etf_table: no credential check,
the URL simply embeds whatever the environment returned (the string None
when the key is absent). -/
def hist_request (key? : Option String) (net : String → Option (List (String × ℚ)))
    (d : String) : List String × Option (List (String × ℚ)) :=
  ([histUrl (match key? with | some k => k | none => "None") d],
    net (histUrl (match key? with | some k => k | none => "None") d))

def unempCol : String := "Unemployment rate"

def debtCol : String := "Gross debt, General government, Percent of GDP"

def inflCol : String :=
  "All Items, Consumer price index (CPI), Period average, percent change"

def cavCol : String := "Current account balance (credit less debit), Percent of GDP"

def gdpCol : String := "Gross domestic product (GDP), Current prices, US dollar"

def extDebtCol : String := "External debt, Percent of GDP"

def exportsCol : String := "Exports of goods and services, US dollar"

/-- The seven indicators selected in build_etf_table. -/
def indicators : List String :=
  [gdpCol, inflCol, unempCol, cavCol, debtCol, extDebtCol, exportsCol]

/-- The scored indicator set: the seven macros plus the two FX columns. -/
def final_inds : List String := indicators ++ ["FX Rate", "FX Change"]

/-- Pandas comparison on a possibly missing cell: a missing value
satisfies no threshold comparison. -/
def optLeB (v : Option ℚ) (b : ℚ) : Bool :=
  match v with
  | some x => decide (x ≤ b)
  | none => false

def optGeB (v : Option ℚ) (b : ℚ) : Bool :=
  match v with
  | some x => decide (b ≤ x)
  | none => false

def optBetweenB (v : Option ℚ) (lo hi : ℚ) : Bool :=
  match v with
  | some x => decide (lo ≤ x ∧ x ≤ hi)
  | none => false

/-- The conjunction of the four relaxed thresholds (the mask built in
apply_health_filters). -/
def healthMask (r : CountryRecord) : Bool :=
  optLeB (r.getCol unempCol) 15 && optLeB (r.getCol debtCol) 110 &&
    optBetweenB (r.getCol inflCol) (-2) 50 && optGeB (r.getCol cavCol) (-5)

/-- Propositional reading of the mask, used to state the health-filter
claims. -/
def healthPred (r : CountryRecord) : Prop :=
  (∃ x, r.getCol unempCol = some x ∧ x ≤ 15) ∧
    (∃ x, r.getCol debtCol = some x ∧ x ≤ 110) ∧
    (∃ x, r.getCol inflCol = some x ∧ -2 ≤ x ∧ x ≤ 50) ∧
    (∃ x, r.getCol cavCol = some x ∧ -5 ≤ x)

/-- apply_health_filters: keep the rows passing all thresholds, but skip
the filter entirely when nothing passes. -/
def apply_health_filters (df : List CountryRecord) : List CountryRecord :=
  if (df.filter healthMask).isEmpty then df else df.filter healthMask

def insertSorted (x : ℚ) : List ℚ → List ℚ
  | [] => [x]
  | y :: ys => if x ≤ y then x :: y :: ys else y :: insertSorted x ys

def sortQ (xs : List ℚ) : List ℚ := xs.foldr insertSorted []

/-- Pandas median of the non-missing values: the middle of the sorted
list, or the average of the two middle elements; none on an empty list. -/
def medianQ (xs : List ℚ) : Option ℚ :=
  if xs.isEmpty then none
  else
    if (sortQ xs).length % 2 = 1 then some ((sortQ xs).getD ((sortQ xs).length / 2) 0)
    else some (((sortQ xs).getD ((sortQ xs).length / 2 - 1) 0 +
      (sortQ xs).getD ((sortQ xs).length / 2) 0) / 2)

/-- Column imputation: fillna with the column median over the non-missing
values; an entirely missing column stays missing. -/
def imputeCol (col : List (Option ℚ)) : List (Option ℚ) :=
  col.map (fun c =>
    match c with
    | some v => some v
    | none => medianQ (col.filterMap id))

def colMean (xs : List ℚ) : ℚ := xs.sum / (xs.length : ℚ)

/-- Population variance, as used by StandardScaler. -/
def colVar (xs : List ℚ) : ℚ :=
  ((xs.map (fun x => (x - colMean xs) ^ 2)).sum) / (xs.length : ℚ)

/-- StandardScaler z-scores of one column; a zero-variance column gets
scale 1, mirroring sklearn. The square root is the parameter sq. -/
def zCol (sq : ℚ → ℚ) (xs : List ℚ) : List ℚ :=
  xs.map (fun x =>
    (x - colMean xs) / (if colVar xs = 0 then 1 else sq (colVar xs)))

def colOf (df : List CountryRecord) (ind : String) : List (Option ℚ) :=
  df.map (fun r => r.getCol ind)

/-- Composite scores: per-row mean of the per-column z-scores. -/
def composites (sq : ℚ → ℚ) (fcols : List (List ℚ)) (n : ℕ) : List ℚ :=
  (List.range n).map (fun i =>
    (((fcols.map (zCol sq)).map (fun c => c.getD i 0)).sum) / ((fcols.length : ℕ) : ℚ))

/-- Sequence one column: none when any cell is still missing (the scaler
raising on remaining NaN input). -/
def seqOpt : List (Option ℚ) → Option (List ℚ)
  | [] => some []
  | none :: _ => none
  | some v :: cs =>
    match seqOpt cs with
    | some vs => some (v :: vs)
    | none => none

/-- Sequence all columns. -/
def seqCols : List (List (Option ℚ)) → Option (List (List ℚ))
  | [] => some []
  | c :: cs =>
    match seqOpt c with
    | none => none
    | some v =>
      match seqCols cs with
      | none => none
      | some vs => some (v :: vs)

/-- Imputation, standardization and composite scoring: the first half of
compute_scores_and_weights, returning one composite score per country;
none models the scaler raising on empty or still-missing input. -/
def score_table (sq : ℚ → ℚ) (df : List CountryRecord) (inds : List String) :
    Option (List (String × ℚ)) :=
  if df.isEmpty then none
  else
    match seqCols (inds.map (fun i => imputeCol (colOf df i))) with
    | none => none
    | some fcols => some ((df.map (fun r => r.country)).zip (composites sq fcols df.length))

/-- The positivity filter of compute_scores_and_weights. -/
def posScores (rows : List (String × ℚ)) : List (String × ℚ) :=
  rows.filter (fun r => decide (0 < r.2))

/-- The retained set: the positive scores, or everything when no score is
positive (the observable fallback). -/
def chosenScores (rows : List (String × ℚ)) : List (String × ℚ) :=
  if (posScores rows).isEmpty then rows else posScores rows

/-- Weight normalization over the retained set: weight = score divided by
the sum of retained scores, with no guard on the sum. -/
def normalize_weights (rows : List (String × ℚ)) : List (String × ℚ × ℚ) :=
  (chosenScores rows).map
    (fun r => (r.1, r.2, r.2 / ((chosenScores rows).map (fun x => x.2)).sum))

/-- compute_scores_and_weights: scoring followed by positivity filtering
and weight normalization; rows are (country, composite score, weight). -/
def compute_scores_and_weights (sq : ℚ → ℚ) (df : List CountryRecord) (inds : List String) :
    Option (List (String × ℚ × ℚ)) :=
  (score_table sq df inds).map normalize_weights

/-- FX rate of a country in the wide table. -/
def fxLookup (wide : List CountryRecord) (c : String) : Option ℚ :=
  (wide.find? (fun r => r.country == c)).bind (fun r => r.fxRate)

/-- compute_etf_value: the sum over weighted countries of
weight times (1 / fx rate); none models loc raising when some weighted
country has no row or no rate in the wide table. -/
def compute_etf_value : List (String × ℚ × ℚ) → List CountryRecord → Option ℚ
  | [], _ => some 0
  | e :: es, wide =>
    match fxLookup wide e.1, compute_etf_value es wide with
    | some fx, some rest => some (e.2.2 * (1 / fx) + rest)
    | _, _ => none

/-- FX enrichment step of build_etf_table: record the one-year-ago rate
and the relative change (current - historical) / historical. -/
def enrichFx (hist : List (String × ℚ)) (wide1 : List CountryRecord) : List CountryRecord :=
  wide1.map (fun r =>
    { r with
      fxRate1Y := r.currency.bind (fun c => List.lookup c hist)
      fxChange :=
        match r.fxRate, r.currency.bind (fun c => List.lookup c hist) with
        | some cur, some hv => some ((cur - hv) / hv)
        | _, _ => none })

/-- build_etf_table: the full pipeline, with the list of network request
URLs issued as the first component of the result. -/
def build_etf_table (sq : ℚ → ℚ) (cy : Int) (d : String)
    (lookup : String → Option (List String)) (key? : Option String)
    (net : String → Option (List (String × ℚ))) (panel : List PanelRow) :
    List String × Except PipeErr (List (String × ℚ × ℚ) × List CountryRecord) :=
  match map_currencies lookup key? net (extract_latest_values cy indicators panel) with
  | (calls1, Except.error e) => (calls1, Except.error e)
  | (calls1, Except.ok wide1) =>
    match hist_request key? net d with
    | (calls2, none) => (calls1 ++ calls2, Except.error PipeErr.httpError)
    | (calls2, some hist) =>
      match compute_scores_and_weights sq
          (apply_health_filters (enrichFx hist wide1)) final_inds with
      | none => (calls1 ++ calls2, Except.error PipeErr.valueError)
      | some etf =>
        (calls1 ++ calls2,
          Except.ok (etf, apply_health_filters (enrichFx hist wide1)))

/-- Concrete currency oracle for a single-country pipeline run. -/
def exLookup : String → Option (List String) :=
  fun n => if n = "Astoria" then some ["AST"] else none

/-- Concrete network oracle for a single-country pipeline run. -/
def exNet : String → Option (List (String × ℚ)) :=
  fun u =>
    if u = latestUrl "K" then some [("AST", 2)]
    else if u = histUrl "K" "2024-10-12" then some [("AST", 1)]
    else none

/-- Concrete panel with one country carrying all seven indicators. -/
def exPanel : List PanelRow :=
  [⟨"Astoria", gdpCol, [(2024, some 1000)]⟩,
    ⟨"Astoria", inflCol, [(2024, some 2)]⟩,
    ⟨"Astoria", unempCol, [(2024, some 5)]⟩,
    ⟨"Astoria", cavCol, [(2024, some 0)]⟩,
    ⟨"Astoria", debtCol, [(2024, some 50)]⟩,
    ⟨"Astoria", extDebtCol, [(2024, some 40)]⟩,
    ⟨"Astoria", exportsCol, [(2024, some 300)]⟩]

/-- The single wide row produced by pivoting exPanel. -/
def exRec0 : CountryRecord :=
  { country := "Astoria"
    cols := [(gdpCol, some 1000), (inflCol, some 2), (unempCol, some 5), (cavCol, some 0),
      (debtCol, some 50), (extDebtCol, some 40), (exportsCol, some 300)] }

/-- The row after currency resolution and the FX join. -/
def exRec1 : CountryRecord := { exRec0 with currency := some "AST", fxRate := some 2 }

/-- The row after the historical FX enrichment. -/
def exRec2 : CountryRecord := { exRec1 with fxRate1Y := some 1, fxChange := some 1 }

/-- Two countries with distinct indicator values: one score is positive. -/
def dfW1 : List CountryRecord :=
  [{ country := "P", cols := [(unempCol, some 0)] },
    { country := "Q", cols := [(unempCol, some 2)] }]

/-- Two countries with identical indicator values: all scores are zero. -/
def dfC3 : List CountryRecord :=
  [{ country := "R", cols := [(unempCol, some 4)] },
    { country := "S", cols := [(unempCol, some 4)] }]

/-- Another all-zero-score table for the fallback row count. -/
def dfC4 : List CountryRecord :=
  [{ country := "U", cols := [(unempCol, some 3)] },
    { country := "V", cols := [(unempCol, some 3)] }]

/-- A row passing every health threshold. -/
def rowPass : CountryRecord :=
  { country := "G"
    cols := [(unempCol, some 5), (debtCol, some 50), (inflCol, some 2), (cavCol, some 0)] }

/-- A row whose unemployment cell is missing. -/
def rowMissing : CountryRecord :=
  { country := "M"
    cols := [(debtCol, some 50), (inflCol, some 2), (cavCol, some 0)] }

/-- A row failing every health threshold by having no data at all. -/
def rowFailing : CountryRecord :=
  { country := "F", cols := [] }

/-- The valuation example of the spec: weights 0.6 and 0.4. -/
def exEtf : List (String × ℚ × ℚ) := [("A", 0, 3 / 5), ("B", 0, 2 / 5)]

/-- FX rates 2.0 and 4.0 for the valuation example. -/
def exWide : List CountryRecord :=
  [{ country := "A", cols := [], fxRate := some 2 },
    { country := "B", cols := [], fxRate := some 4 }]

/-- Currency oracle knowing the bare name Iran but not the decorated one. -/
def lookupEx7 : String → Option (List String) :=
  fun n => if n = "Iran" then some ["IRR"] else none

/-- The temporal-selection example row of the spec. -/
def rowC2 : List (Int × Option ℚ) := [(2021, some 5), (2022, none), (2023, some 7)]

/-! Helper lemmas on association lists, on the maximum key, and on the
available-values list. -/

theorem lookup_mem {α β : Type} [BEq α] [LawfulBEq α] :
    ∀ (l : List (α × β)) (k : α) (v : β), List.lookup k l = some v → (k, v) ∈ l
  | [], k, v, h => by simp [List.lookup] at h
  | (a, b) :: t, k, v, h => by
    by_cases hk : (k == a) = true
    · rw [List.lookup, hk] at h
      have hkv : v = b := by simpa using h.symm
      have hka : k = a := eq_of_beq hk
      rw [hka, hkv]
      exact List.mem_cons_self _ _
    · rw [List.lookup, Bool.of_not_eq_true hk] at h
      exact List.mem_cons_of_mem _ (lookup_mem t k v h)

theorem lookup_eq_some_of_nodup {α β : Type} [BEq α] [LawfulBEq α] :
    ∀ (l : List (α × β)) (k : α) (v : β),
      (l.map Prod.fst).Nodup → (k, v) ∈ l → List.lookup k l = some v
  | [], k, v, _, hm => absurd hm (List.not_mem_nil _)
  | (a, b) :: t, k, v, hnd, hm => by
    rcases List.mem_cons.mp hm with he | ht
    · have hka : k = a := congrArg Prod.fst he
      have hvb : v = b := congrArg Prod.snd he
      rw [List.lookup, hka, hvb]
      simp
    · have hnd2 : (a :: t.map Prod.fst).Nodup := hnd
      have hnd' := List.nodup_cons.mp hnd2
      have hka : ¬ k = a := by
        intro hka
        exact hnd'.1 (hka ▸ (List.mem_map.mpr ⟨(k, v), ht, rfl⟩))
      rw [List.lookup, beq_eq_false_iff_ne.mpr hka]
      exact lookup_eq_some_of_nodup t k v hnd'.2 ht

theorem le_maxKey : ∀ (l : List (Int × ℚ)) (p : Int × ℚ), p ∈ l → p.1 ≤ maxKey l
  | [], p, h => absurd h (List.not_mem_nil _)
  | [q], p, h => by
    rw [List.mem_singleton.mp h, maxKey]
  | q :: r :: t, p, h => by
    rw [maxKey]
    rcases List.mem_cons.mp h with he | ht
    · rw [he]; exact le_max_left _ _
    · exact le_trans (le_maxKey (r :: t) p ht) (le_max_right _ _)

theorem maxKey_mem : ∀ (l : List (Int × ℚ)), l ≠ [] → maxKey l ∈ l.map Prod.fst
  | [], h => absurd rfl h
  | [q], _ => by simp [maxKey]
  | q :: r :: t, _ => by
    rw [maxKey]
    rcases max_cases q.1 (maxKey (r :: t)) with ⟨he, _⟩ | ⟨he, _⟩
    · rw [he]; exact List.mem_map.mpr ⟨q, List.mem_cons_self _ _, rfl⟩
    · rw [he]
      exact List.mem_cons_of_mem _ (maxKey_mem (r :: t) (List.cons_ne_nil _ _))

theorem mem_availOf {cy : Int} {row : List (Int × Option ℚ)} {y : Int} {v : ℚ} :
    (y, v) ∈ availOf cy row ↔ (y, some v) ∈ row ∧ y ≤ cy := by
  constructor
  · intro h
    rcases List.mem_filterMap.mp h with ⟨p, hp, hf⟩
    rcases p with ⟨y', w⟩
    cases w with
    | none => simp at hf
    | some v' =>
      by_cases hy : y' ≤ cy
      · simp only [if_pos hy] at hf
        have h1 : y' = y := congrArg Prod.fst (Option.some.injEq _ _ ▸ hf)
        have h2 : v' = v := congrArg Prod.snd (Option.some.injEq _ _ ▸ hf)
        exact ⟨h1 ▸ h2 ▸ hp, h1 ▸ hy⟩
      · simp [if_neg hy] at hf
  · intro h
    exact List.mem_filterMap.mpr ⟨(y, some v), h.1, by simp [h.2]⟩

theorem availOf_key_le {cy : Int} {row : List (Int × Option ℚ)} {p : Int × ℚ}
    (h : p ∈ availOf cy row) : p.1 ≤ cy := by
  rcases p with ⟨y, v⟩
  exact (mem_availOf.mp h).2

theorem availOf_keys_sublist (cy : Int) :
    ∀ row : List (Int × Option ℚ),
      ((availOf cy row).map Prod.fst).Sublist (row.map Prod.fst)
  | [] => by simp [availOf]
  | ⟨y, w⟩ :: t => by
    cases w with
    | none =>
      have he : availOf cy (⟨y, none⟩ :: t) = availOf cy t := by
        simp [availOf, List.filterMap_cons]
      rw [he, List.map_cons]
      exact (availOf_keys_sublist cy t).cons _
    | some v =>
      by_cases hy : y ≤ cy
      · have he : availOf cy (⟨y, some v⟩ :: t) = (y, v) :: availOf cy t := by
          simp [availOf, List.filterMap_cons, hy]
        rw [he, List.map_cons, List.map_cons]
        exact (availOf_keys_sublist cy t).cons₂ _
      · have he : availOf cy (⟨y, some v⟩ :: t) = availOf cy t := by
          simp [availOf, List.filterMap_cons, hy]
        rw [he, List.map_cons]
        exact (availOf_keys_sublist cy t).cons _

theorem availOf_eq_nil {cy : Int} {row : List (Int × Option ℚ)}
    (h : ∀ y v, (y, some v) ∈ row → cy < y) : availOf cy row = [] := by
  cases hq : availOf cy row with
  | nil => rfl
  | cons p t =>
    rcases p with ⟨y, v⟩
    have hp : (y, v) ∈ availOf cy row := hq ▸ List.mem_cons_self _ _
    have hm := mem_availOf.mp hp
    exact absurd hm.2 (not_le.mpr (h y v hm.1))

theorem isEmpty_false_of_ne_nil {α : Type} {l : List α} (h : l ≠ []) : l.isEmpty = false := by
  cases l with
  | nil => exact absurd rfl h
  | cons a t => rfl

theorem sum_map_div (l : List ℚ) (c : ℚ) : (l.map (fun x => x / c)).sum = l.sum / c := by
  induction l with
  | nil => simp
  | cons x xs ih => simp [ih, add_div]

/-- When the positivity filter retains something, the retained set is
exactly the filtered set, the total is positive, the weights sum to one
and each weight is positive. -/
theorem normalize_weights_sum_pos (rows : List (String × ℚ)) (hpos : posScores rows ≠ []) :
    ((normalize_weights rows).map (fun e => e.2.2)).sum = 1 ∧
      ∀ e ∈ normalize_weights rows, 0 < e.2.2 := by
  have hch : chosenScores rows = posScores rows := by
    rw [chosenScores, if_neg (by simp [isEmpty_false_of_ne_nil hpos])]
  have hall : ∀ r ∈ chosenScores rows, 0 < r.2 := by
    rw [hch]
    intro r hr
    exact of_decide_eq_true (List.mem_filter.mp hr).2
  have hne : chosenScores rows ≠ [] := by rw [hch]; exact hpos
  have hmapne : (chosenScores rows).map (fun x => x.2) ≠ [] := by
    simpa [List.map_eq_nil_iff] using hne
  have htot : 0 < ((chosenScores rows).map (fun x => x.2)).sum := by
    apply List.sum_pos
    · intro x hx
      rcases List.mem_map.mp hx with ⟨r, hr, rfl⟩
      exact hall r hr
    · exact hmapne
  constructor
  · have heq : ((normalize_weights rows).map (fun e => e.2.2)).sum
        = (((chosenScores rows).map (fun x => x.2)).map
            (fun x => x / ((chosenScores rows).map (fun x => x.2)).sum)).sum := by
      rw [normalize_weights, List.map_map, List.map_map]
      rfl
    rw [heq, sum_map_div, div_self (ne_of_gt htot)]
  · intro e he
    rw [normalize_weights] at he
    rcases List.mem_map.mp he with ⟨r, hr, rfl⟩
    exact div_pos (hall r hr) htot

/-- Generic row-count fact: the scored table has one row per country. -/
theorem score_table_length (sq : ℚ → ℚ) (df : List CountryRecord) (inds : List String)
    (rows : List (String × ℚ)) (hs : score_table sq df inds = some rows) :
    rows.length = df.length := by
  unfold score_table at hs
  by_cases hemp : df.isEmpty = true
  · rw [if_pos hemp] at hs; cases hs
  · rw [if_neg hemp] at hs
    cases hmm : seqCols (inds.map (fun i => imputeCol (colOf df i))) with
    | none => rw [hmm] at hs; cases hs
    | some fcols =>
      rw [hmm] at hs
      have hrows : rows = (df.map (fun r => r.country)).zip (composites sq fcols df.length) := by
        simpa using hs.symm
      rw [hrows, List.length_zip, List.length_map]
      simp [composites]

/-- Concrete evaluation: two distinct countries give composite scores -1
and 1. -/
theorem dfW1_score_eval :
    score_table (fun q => q) dfW1 [unempCol] = some [("P", -1), ("Q", 1)] := by
  simp [score_table, dfW1, imputeCol, colOf, CountryRecord.getCol, unempCol, medianQ,
    sortQ, insertSorted, composites, zCol, colMean, colVar, List.lookup, List.range,
    List.range.loop, Option.join, seqCols, seqOpt]
  norm_num

/-- Concrete evaluation: only country Q has a positive score and receives
the full weight. -/
theorem dfW1_weights_eval :
    compute_scores_and_weights (fun q => q) dfW1 [unempCol] = some [("Q", 1, 1)] := by
  simp [compute_scores_and_weights, score_table, dfW1, imputeCol, colOf,
    CountryRecord.getCol, unempCol, medianQ, sortQ, insertSorted, composites, zCol,
    colMean, colVar, List.lookup, List.range, List.range.loop, Option.join, seqCols,
    seqOpt, normalize_weights, chosenScores, posScores]
  norm_num

/-- C1 (amended): whenever the positivity filter retains at least one
country, the weights over the final scored set sum to exactly 1 (hence
within tolerance 1e-9) and every included weight is strictly positive. -/
theorem c1_weight_normalization (sq : ℚ → ℚ) (df : List CountryRecord) (inds : List String)
    (rows : List (String × ℚ)) (etf : List (String × ℚ × ℚ))
    (hs : score_table sq df inds = some rows)
    (hc : compute_scores_and_weights sq df inds = some etf)
    (hpos : posScores rows ≠ []) :
    ((etf.map (fun e => e.2.2)).sum = 1) ∧ ∀ e ∈ etf, 0 < e.2.2 := by
  have hetf : etf = normalize_weights rows := by
    unfold compute_scores_and_weights at hc
    rw [hs] at hc
    simpa using hc.symm
  rw [hetf]
  exact normalize_weights_sum_pos rows hpos

/-- C1 witness: a two-country table with one positive composite score
normalizes to weights summing to 1, all positive. -/
theorem c1_weight_normalization_witness :
    (([("Q", (1 : ℚ), (1 : ℚ))].map (fun e => e.2.2)).sum = 1) ∧
      ∀ e ∈ [("Q", (1 : ℚ), (1 : ℚ))], 0 < e.2.2 :=
  c1_weight_normalization (fun q => q) dfW1 [unempCol] [("P", -1), ("Q", 1)]
    [("Q", 1, 1)] dfW1_score_eval dfW1_weights_eval (by norm_num [posScores])

/-- Stage evaluation: pivoting the single-country panel. -/
theorem ex_extract_eval : extract_latest_values 2025 indicators exPanel = [exRec0] := by
  simp [extract_latest_values, dedupFirst, exPanel, indicators, exRec0, latest, availOf,
    maxKey, List.lookup, gdpCol, inflCol, unempCol, cavCol, debtCol, extDebtCol, exportsCol]

/-- Stage evaluation: currency resolution and FX join. -/
theorem ex_map_eval : map_currencies exLookup (some "K") exNet [exRec0] =
    ([latestUrl "K"], Except.ok [exRec1]) := by
  simp [map_currencies, exLookup, exNet, get_code, tryVariants, beforeParen, beforeComma,
    fetch_fx_rates, latestUrl, histUrl, exRec0, exRec1, List.lookup]

/-- Stage evaluation: the historical-rates request. -/
theorem ex_hist_eval : hist_request (some "K") exNet "2024-10-12" =
    ([histUrl "K" "2024-10-12"], some [("AST", 1)]) := by
  simp [hist_request, exNet, latestUrl, histUrl]

/-- Stage evaluation: the FX change column. -/
theorem ex_enrich_eval : enrichFx [("AST", 1)] [exRec1] = [exRec2] := by
  simp [enrichFx, exRec1, exRec2, exRec0, List.lookup]
  norm_num

/-- Stage evaluation: the single row passes the health thresholds. -/
theorem ex_health_eval : apply_health_filters [exRec2] = [exRec2] := by
  simp [apply_health_filters, healthMask, optLeB, optGeB, optBetweenB, CountryRecord.getCol,
    exRec2, exRec1, exRec0, unempCol, debtCol, inflCol, cavCol, gdpCol, extDebtCol,
    exportsCol, List.lookup]
  norm_num

/-- Stage evaluation: a single country gets composite score 0, falls into
the fallback, and its weight is the score divided by the zero total. -/
theorem ex_weights_eval : compute_scores_and_weights (fun q => q) [exRec2] final_inds =
    some [("Astoria", 0, 0)] := by
  simp [compute_scores_and_weights, score_table, final_inds, indicators, imputeCol, colOf,
    CountryRecord.getCol, exRec2, exRec1, exRec0, unempCol, debtCol, inflCol, cavCol,
    gdpCol, extDebtCol, exportsCol, medianQ, sortQ, insertSorted, composites, zCol,
    colMean, colVar, List.lookup, List.range, List.range.loop, Option.join, seqCols,
    seqOpt, normalize_weights, chosenScores, posScores]

/-- Full-run evaluation on the single-country inputs. -/
theorem ex_build_eval :
    build_etf_table (fun q => q) 2025 "2024-10-12" exLookup (some "K") exNet exPanel =
      ([latestUrl "K", histUrl "K" "2024-10-12"],
        Except.ok ([("Astoria", 0, 0)], [exRec2])) := by
  unfold build_etf_table
  rw [ex_extract_eval, ex_map_eval]
  simp only [ex_hist_eval, ex_enrich_eval, ex_health_eval, ex_weights_eval]
  rfl

/-- C1 counterexample: a full pipeline run over a single-country panel
reaches the positivity fallback, whose normalizing sum is zero; the run
succeeds yet its only weight is 0 (score divided by the zero sum, NaN in
the floating-point original), so the weights do not sum to 1 within 1e-9
and no included weight is positive. -/
theorem c1_pipeline_counterexample :
    ((build_etf_table (fun q => q) 2025 "2024-10-12" exLookup (some "K") exNet exPanel).2.map
        (fun p => p.1)) = Except.ok [("Astoria", (0 : ℚ), (0 : ℚ))] ∧
      ¬ ((|(([("Astoria", (0 : ℚ), (0 : ℚ))].map (fun e => e.2.2)).sum) - 1| ≤
            1 / 1000000000) ∧
          ∀ e ∈ [("Astoria", (0 : ℚ), (0 : ℚ))], 0 < e.2.2) := by
  constructor
  · rw [ex_build_eval]
    rfl
  · intro h
    have h1 := h.1
    norm_num at h1


/-- C3: the implementation does not guard the fallback normalization; on
a table where every composite score is zero the fallback set is used, the
sum of the retained scores is exactly zero, and the weights are still
computed by dividing each score by that zero sum (NaN in the
floating-point original, the junk value 0 in this rational model). -/
theorem c3_fallback_division_by_zero :
    score_table (fun q => q) dfC3 [unempCol] = some [("R", 0), ("S", 0)] ∧
      posScores [("R", (0 : ℚ)), ("S", (0 : ℚ))] = [] ∧
      (((chosenScores [("R", (0 : ℚ)), ("S", (0 : ℚ))]).map (fun x => x.2)).sum = 0) ∧
      compute_scores_and_weights (fun q => q) dfC3 [unempCol] =
        some [("R", 0, 0), ("S", 0, 0)] := by
  refine ⟨?_, by norm_num [posScores], by norm_num [chosenScores, posScores], ?_⟩
  · simp [score_table, dfC3, imputeCol, colOf, CountryRecord.getCol, unempCol, medianQ,
      sortQ, insertSorted, composites, zCol, colMean, colVar, List.lookup, List.range,
      List.range.loop, Option.join, seqCols, seqOpt]
  · simp [compute_scores_and_weights, score_table, dfC3, imputeCol, colOf,
      CountryRecord.getCol, unempCol, medianQ, sortQ, insertSorted, composites, zCol,
      colMean, colVar, List.lookup, List.range, List.range.loop, Option.join, seqCols,
      seqOpt, normalize_weights, chosenScores, posScores]

/-- C4: the positivity filter retains exactly the rows with strictly
positive composite score; when it retains nothing, the fallback makes the
returned weight table as long as the full scored set, and the result is
never empty for a nonempty input. -/
theorem c4_positivity_fallback (sq : ℚ → ℚ) (df : List CountryRecord) (inds : List String)
    (rows : List (String × ℚ)) (etf : List (String × ℚ × ℚ))
    (hs : score_table sq df inds = some rows)
    (hc : compute_scores_and_weights sq df inds = some etf) :
    (∀ r, r ∈ posScores rows ↔ r ∈ rows ∧ 0 < r.2) ∧
      (posScores rows = [] → etf.length = df.length) ∧
      (df ≠ [] → etf ≠ []) := by
  have hetf : etf = normalize_weights rows := by
    unfold compute_scores_and_weights at hc
    rw [hs] at hc
    simpa using hc.symm
  have hlen := score_table_length sq df inds rows hs
  refine ⟨?_, ?_, ?_⟩
  · intro r
    simp [posScores, List.mem_filter]
  · intro hp
    rw [hetf, normalize_weights, List.length_map, chosenScores, if_pos (by simp [hp])]
    exact hlen
  · intro hdf
    rw [hetf, normalize_weights]
    simp only [ne_eq, List.map_eq_nil_iff]
    rw [chosenScores]
    by_cases hp : (posScores rows).isEmpty = true
    · rw [if_pos hp]
      intro hre
      rw [hre] at hlen
      exact hdf (List.eq_nil_of_length_eq_zero hlen.symm)
    · rw [if_neg hp]
      intro hre
      exact hp (by rw [hre]; rfl)

/-- Concrete evaluation: two identical countries give score 0 twice. -/
theorem dfC4_score_eval :
    score_table (fun q => q) dfC4 [unempCol] = some [("U", 0), ("V", 0)] := by
  simp [score_table, dfC4, imputeCol, colOf, CountryRecord.getCol, unempCol, medianQ,
    sortQ, insertSorted, composites, zCol, colMean, colVar, List.lookup, List.range,
    List.range.loop, Option.join, seqCols, seqOpt]

/-- Concrete evaluation: with no positive score the fallback keeps both
rows, each with weight 0 after dividing by the zero total. -/
theorem dfC4_weights_eval :
    compute_scores_and_weights (fun q => q) dfC4 [unempCol] =
      some [("U", 0, 0), ("V", 0, 0)] := by
  simp [compute_scores_and_weights, score_table, dfC4, imputeCol, colOf,
    CountryRecord.getCol, unempCol, medianQ, sortQ, insertSorted, composites, zCol,
    colMean, colVar, List.lookup, List.range, List.range.loop, Option.join, seqCols,
    seqOpt, normalize_weights, chosenScores, posScores]

/-- C4 witness: on a two-country table whose composite scores are all
zero, the returned weight table still has two rows. -/
theorem c4_positivity_fallback_witness :
    ([("U", (0 : ℚ), (0 : ℚ)), ("V", 0, 0)] : List (String × ℚ × ℚ)).length = dfC4.length :=
  (c4_positivity_fallback (fun q => q) dfC4 [unempCol] [("U", 0), ("V", 0)]
    [("U", 0, 0), ("V", 0, 0)] dfC4_score_eval dfC4_weights_eval).2.1
    (by norm_num [posScores])

/-- C9: the explicit preference for the current-year value in the
two-branch temporal selection is redundant; since every collected year is
bounded by the current year, taking the value at the maximum available
year is extensionally equal to the implemented selection, on every input
(in particular on every nonempty available set). -/
theorem c9_latest_refinement : ∀ (cy : Int) (row : List (Int × Option ℚ)),
    latest cy row = latestMaxOnly cy row := by
  intro cy row
  unfold latest latestMaxOnly
  cases hav : availOf cy row with
  | nil => rfl
  | cons p t =>
    simp only [List.isEmpty_cons, Bool.false_eq_true, if_false]
    cases hl : List.lookup cy (p :: t) with
    | none => rfl
    | some v =>
      have hmem : (cy, v) ∈ p :: t := lookup_mem _ _ _ hl
      have h1 : cy ≤ maxKey (p :: t) := le_maxKey _ (cy, v) hmem
      have h2 : maxKey (p :: t) ≤ cy := by
        rcases List.mem_map.mp (maxKey_mem (p :: t) (List.cons_ne_nil _ _)) with ⟨q, hq, hfst⟩
        have hql : q ∈ availOf cy row := hav ▸ hq
        exact hfst ▸ availOf_key_le hql
      rw [le_antisymm h2 h1, hl]

/-- C2: over rows with unique year keys, temporal selection returns the
current-year value when present, otherwise the value at the maximum
available year strictly before the current year; it never selects a value
dated after the current year, and yields a missing cell (not an error)
when no value is available. -/
theorem c2_temporal_selection (cy : Int) (row : List (Int × Option ℚ))
    (hnd : (row.map Prod.fst).Nodup) :
    (∀ v, (cy, some v) ∈ row → latest cy row = some v) ∧
      (∀ y v, (y, some v) ∈ row → y < cy →
        (∀ y' v', (y', some v') ∈ row → y' ≤ cy → y' ≤ y) →
        latest cy row = some v) ∧
      (∀ v, latest cy row = some v → ∃ y, (y, some v) ∈ row ∧ y ≤ cy) ∧
      ((∀ y v, (y, some v) ∈ row → cy < y) → latest cy row = none) := by
  have hndA : ((availOf cy row).map Prod.fst).Nodup :=
    List.Nodup.sublist (availOf_keys_sublist cy row) hnd
  refine ⟨?_, ?_, ?_, ?_⟩
  · intro v hm
    have hmA : (cy, v) ∈ availOf cy row := mem_availOf.mpr ⟨hm, le_refl cy⟩
    have hne : (availOf cy row).isEmpty = false := by
      cases hq : availOf cy row with
      | nil => rw [hq] at hmA; exact absurd hmA (List.not_mem_nil _)
      | cons p t => rfl
    unfold latest
    rw [if_neg (by simp [hne]), lookup_eq_some_of_nodup _ _ _ hndA hmA]
  · intro y v hm hlt hmax
    have hmA : (y, v) ∈ availOf cy row := mem_availOf.mpr ⟨hm, le_of_lt hlt⟩
    have hne : (availOf cy row).isEmpty = false := by
      cases hq : availOf cy row with
      | nil => rw [hq] at hmA; exact absurd hmA (List.not_mem_nil _)
      | cons p t => rfl
    have hcy : List.lookup cy (availOf cy row) = none := by
      cases hl : List.lookup cy (availOf cy row) with
      | none => rfl
      | some w =>
        have hmem := lookup_mem _ _ _ hl
        have hmw := mem_availOf.mp hmem
        have hle : cy ≤ y := hmax cy w hmw.1 (le_refl cy)
        exact absurd (lt_of_lt_of_le hlt hle) (lt_irrefl y)
    have hmaxeq : maxKey (availOf cy row) = y := by
      apply le_antisymm
      · rcases List.mem_map.mp
            (maxKey_mem (availOf cy row) (List.ne_nil_of_mem hmA)) with ⟨q, hq, hfst⟩
        rcases q with ⟨y', v'⟩
        have hqm := mem_availOf.mp hq
        exact hfst ▸ hmax y' v' hqm.1 hqm.2
      · exact le_maxKey _ (y, v) hmA
    unfold latest
    rw [if_neg (by simp [hne]), hcy, hmaxeq]
    exact lookup_eq_some_of_nodup _ _ _ hndA hmA
  · intro v h
    unfold latest at h
    by_cases hemp : (availOf cy row).isEmpty = true
    · rw [if_pos hemp] at h; cases h
    · rw [if_neg hemp] at h
      cases hl : List.lookup cy (availOf cy row) with
      | some w =>
        rw [hl] at h
        have hw : w = v := by simpa using h
        have hmem := lookup_mem _ _ _ hl
        have hma := mem_availOf.mp (hw ▸ hmem)
        exact ⟨cy, hma.1, le_refl cy⟩
      | none =>
        rw [hl] at h
        have hmem := lookup_mem _ _ _ h
        have hma := mem_availOf.mp hmem
        exact ⟨maxKey (availOf cy row), hma.1, hma.2⟩
  · intro h
    unfold latest
    rw [availOf_eq_nil h]
    rfl

/-- C2 witness: on the indicator history of the spec example, current year
2023 selects 7.0, and current year 2024 still selects 7.0 by falling back
to the latest prior year. -/
theorem c2_temporal_selection_witness :
    latest 2023 rowC2 = some 7 ∧ latest 2024 rowC2 = some 7 :=
  ⟨(c2_temporal_selection 2023 rowC2 (by decide)).1 7 (by decide),
    (c2_temporal_selection 2024 rowC2 (by decide)).2.1 2023 7 (by decide) (by decide)
      (by
        intro y v hm _
        simp only [rowC2, List.mem_cons, List.not_mem_nil, or_false,
          Prod.mk.injEq] at hm
        rcases hm with ⟨h, _⟩ | ⟨h, _⟩ | ⟨h, _⟩ <;> omega)⟩

theorem optLeB_iff (v : Option ℚ) (b : ℚ) :
    optLeB v b = true ↔ ∃ x, v = some x ∧ x ≤ b := by
  cases v <;> simp [optLeB]

theorem optGeB_iff (v : Option ℚ) (b : ℚ) :
    optGeB v b = true ↔ ∃ x, v = some x ∧ b ≤ x := by
  cases v <;> simp [optGeB]

theorem optBetweenB_iff (v : Option ℚ) (lo hi : ℚ) :
    optBetweenB v lo hi = true ↔ ∃ x, v = some x ∧ lo ≤ x ∧ x ≤ hi := by
  cases v <;> simp [optBetweenB]

/-- The Boolean mask agrees with its propositional reading. -/
theorem healthMask_iff (r : CountryRecord) : healthMask r = true ↔ healthPred r := by
  simp [healthMask, healthPred, Bool.and_eq_true, optLeB_iff, optGeB_iff,
    optBetweenB_iff, and_assoc]

/-- C5: a threshold configuration matching zero rows returns the input
table unchanged; otherwise exactly the rows satisfying the conjunction of
the four threshold predicates are returned. -/
theorem c5_health_filter_noop : ∀ df : List CountryRecord,
    (df.filter healthMask = [] → apply_health_filters df = df) ∧
      (df.filter healthMask ≠ [] →
        apply_health_filters df = df.filter healthMask ∧
          ∀ r, r ∈ apply_health_filters df ↔ r ∈ df ∧ healthPred r) := by
  intro df
  constructor
  · intro h
    unfold apply_health_filters
    rw [if_pos (by rw [h]; rfl)]
  · intro h
    have he : ¬ (df.filter healthMask).isEmpty = true := by
      simp [isEmpty_false_of_ne_nil h]
    constructor
    · unfold apply_health_filters
      rw [if_neg he]
    · intro r
      unfold apply_health_filters
      rw [if_neg he, List.mem_filter, healthMask_iff]

/-- C5 witness: a table whose single row fails every threshold matches
zero rows, and the unfiltered input is returned unchanged. -/
theorem c5_health_filter_noop_witness :
    apply_health_filters [rowFailing] = [rowFailing] :=
  (c5_health_filter_noop [rowFailing]).1 (by decide)

/-- C10: when the health filter is not skipped, a row with a missing value
in any of the four filtered indicator columns is excluded, because a
missing cell satisfies none of the threshold comparisons. -/
theorem c10_missing_values_excluded (df : List CountryRecord) (r : CountryRecord)
    (_hmem : r ∈ df)
    (hmiss : r.getCol unempCol = none ∨ r.getCol debtCol = none ∨
      r.getCol inflCol = none ∨ r.getCol cavCol = none)
    (hne : df.filter healthMask ≠ []) :
    r ∉ apply_health_filters df := by
  have hmask : healthMask r = false := by
    unfold healthMask
    rcases hmiss with h | h | h | h <;> simp [optLeB, optGeB, optBetweenB, h]
  unfold apply_health_filters
  rw [if_neg (by simp [isEmpty_false_of_ne_nil hne])]
  intro hr
  have hmt := (List.mem_filter.mp hr).2
  rw [hmask] at hmt
  cases hmt

/-- C10 witness: the row with the missing unemployment cell is dropped
while its complete companion row passes. -/
theorem c10_missing_values_excluded_witness :
    rowMissing ∉ apply_health_filters [rowPass, rowMissing] :=
  c10_missing_values_excluded [rowPass, rowMissing] rowMissing (by decide)
    (Or.inl (by decide)) (by decide)

/-- C6: when every weighted country has an FX rate in the wide table, the
ETF value is the sum over countries of weight times (1 / fx rate). -/
theorem c6_valuation (etf : List (String × ℚ × ℚ)) (wide : List CountryRecord)
    (h : ∀ e ∈ etf, (fxLookup wide e.1).isSome) :
    compute_etf_value etf wide =
      some ((etf.map (fun e => e.2.2 * (1 / (fxLookup wide e.1).getD 0))).sum) := by
  induction etf with
  | nil => simp [compute_etf_value]
  | cons e es ih =>
    have he := h e (List.mem_cons_self _ _)
    cases hfx : fxLookup wide e.1 with
    | none =>
      rw [hfx] at he
      simp at he
    | some fx =>
      have ihh := ih (fun x hx => h x (List.mem_cons_of_mem _ hx))
      simp only [compute_etf_value, hfx, ihh, List.map_cons, List.sum_cons,
        Option.getD_some]

/-- C6 witness: with weights 0.6 and 0.4 and FX rates 2.0 and 4.0 (units
of currency per USD) the ETF value is 0.4. -/
theorem c6_valuation_witness : compute_etf_value exEtf exWide = some (2 / 5) := by
  have h := c6_valuation exEtf exWide (by decide)
  rw [h]
  simp [exEtf, exWide, fxLookup, List.find?]
  norm_num

theorem tryVariants_cons_hit (lookup : String → Option (List String)) (v : String)
    (vs : List String) (c : String) (cs : List String) (h : lookup v = some (c :: cs)) :
    tryVariants lookup (v :: vs) = some c := by
  simp [tryVariants, h]

theorem tryVariants_cons_miss (lookup : String → Option (List String)) (v : String)
    (vs : List String) (h : lookup v = none ∨ lookup v = some []) :
    tryVariants lookup (v :: vs) = tryVariants lookup vs := by
  rcases h with h | h <;> simp [tryVariants, h]

/-- C7: currency resolution tries exactly the three candidates in order
(full name, prefix before any parenthetical, prefix before any comma),
returns the first candidate whose lookup yields at least one currency code,
and countries for which all three candidates fail are dropped from the
joined table. -/
theorem c7_currency_resolution (lookup : String → Option (List String)) (name : String) :
    (∀ c cs, lookup name = some (c :: cs) → get_code lookup name = some c) ∧
      ((lookup name = none ∨ lookup name = some []) →
        ∀ c cs, lookup (beforeParen name) = some (c :: cs) →
          get_code lookup name = some c) ∧
      ((lookup name = none ∨ lookup name = some []) →
        (lookup (beforeParen name) = none ∨ lookup (beforeParen name) = some []) →
        ∀ c cs, lookup (beforeComma name) = some (c :: cs) →
          get_code lookup name = some c) ∧
      ((lookup name = none ∨ lookup name = some []) →
        (lookup (beforeParen name) = none ∨ lookup (beforeParen name) = some []) →
        (lookup (beforeComma name) = none ∨ lookup (beforeComma name) = some []) →
        get_code lookup name = none) ∧
      (∀ (key? : Option String) (net : String → Option (List (String × ℚ)))
          (df : List CountryRecord) (calls : List String) (out : List CountryRecord),
        map_currencies lookup key? net df = (calls, Except.ok out) →
        ∀ r ∈ out, (get_code lookup r.country).isSome) := by
  refine ⟨?_, ?_, ?_, ?_, ?_⟩
  · intro c cs h
    exact tryVariants_cons_hit lookup name _ c cs h
  · intro h1 c cs h
    unfold get_code
    rw [tryVariants_cons_miss lookup name _ h1, tryVariants_cons_hit lookup _ _ c cs h]
  · intro h1 h2 c cs h
    unfold get_code
    rw [tryVariants_cons_miss lookup name _ h1, tryVariants_cons_miss lookup _ _ h2,
      tryVariants_cons_hit lookup _ _ c cs h]
  · intro h1 h2 h3
    unfold get_code
    rw [tryVariants_cons_miss lookup name _ h1, tryVariants_cons_miss lookup _ _ h2,
      tryVariants_cons_miss lookup _ _ h3]
    rfl
  · intro key? net df calls out hmc r hr
    simp only [map_currencies] at hmc
    cases hfx : (fetch_fx_rates key? net).2 with
    | error e =>
      rw [hfx] at hmc
      have h2 := congrArg Prod.snd hmc
      dsimp only at h2
      cases h2
    | ok fx =>
      rw [hfx] at hmc
      have h2 := congrArg Prod.snd hmc
      dsimp only at h2
      have h3 := Except.ok.inj h2
      rw [← h3] at hr
      rcases List.mem_map.mp hr with ⟨r1, hr1, rfl⟩
      have hr3 := List.mem_filter.mp ((List.mem_filter.mp hr1).1)
      rcases List.mem_map.mp hr3.1 with ⟨r0, hr0, rfl⟩
      simpa using hr3.2

/-- C7 witness: the decorated name is unknown to the lookup, but its
prefix before the parenthetical resolves, and its first code is returned. -/
theorem c7_currency_resolution_witness :
    get_code lookupEx7 "Iran (Islamic Republic of)" = some "IRR" :=
  (c7_currency_resolution lookupEx7 "Iran (Islamic Republic of)").2.1
    (Or.inl (by decide)) "IRR" [] (by decide)

/-- C8: with the credential absent, every run of build_etf_table fails
with the configuration error having issued no network request; the
historical-rates request itself performs no credential check and would
still issue its request (with the literal None in the URL). -/
theorem c8_missing_credential (sq : ℚ → ℚ) (cy : Int) (d : String)
    (lookup : String → Option (List String))
    (net : String → Option (List (String × ℚ))) (panel : List PanelRow) :
    build_etf_table sq cy d lookup none net panel =
        ([], Except.error PipeErr.configError) ∧
      (hist_request none net d).1 = [histUrl "None" d] :=
  ⟨rfl, rfl⟩

/-- C8 witness: a concrete run with the credential absent yields the
configuration error with an empty call list. -/
theorem c8_missing_credential_witness :
    build_etf_table (fun q => q) 2025 "2024-10-12" exLookup none exNet exPanel =
        ([], Except.error PipeErr.configError) ∧
      (hist_request none exNet "2024-10-12").1 = [histUrl "None" "2024-10-12"] :=
  c8_missing_credential (fun q => q) 2025 "2024-10-12" exLookup exNet exPanel

/-- C9 witness: the two selections agree on the example history. -/
theorem c9_latest_refinement_witness :
    latest 2023 rowC2 = latestMaxOnly 2023 rowC2 :=
  c9_latest_refinement 2023 rowC2
